import Mathlib

/-!
Verification of the conversation ingestion and filtering pipeline of `ccs`
(a local search-and-resume utility for line-delimited conversation
transcripts).  The definitions below are a shallow embedding of the Go
source (`main.go`): pure helpers are translated to Lean functions, the
interactive state machine to a step function on an explicit state record,
and the parts of the program that live behind the JSON library or the
filesystem are made explicit (a small JSON value type, a record per
transcript line, a Boolean for the outcome of a file removal).
-/

namespace Ccs

/-- Substring containment on the underlying character lists; model of
Go `strings.Contains(s, sub)`. -/
def listInfix {α : Type} [BEq α] (sub : List α) : List α → Bool
  | [] => sub.isEmpty
  | c :: rest => sub.isPrefixOf (c :: rest) || listInfix sub rest

/-- Model of Go `strings.Contains(s, sub)`. -/
def strContains (s sub : String) : Bool :=
  listInfix sub.data s.data

/-- Model of Go `strings.ToLower`, character by character. -/
def lowerStr (s : String) : String :=
  ⟨s.data.map Char.toLower⟩

/-- Model of Go `strings.TrimSpace`: drop whitespace from both ends. -/
def strTrim (s : String) : String :=
  ⟨((s.data.dropWhile Char.isWhitespace).reverse.dropWhile Char.isWhitespace).reverse⟩

/-- Model of Go `strings.HasPrefix`. -/
def strStartsWith (s pre : String) : Bool :=
  pre.data.isPrefixOf s.data

/-- Model of Go `strings.TrimSuffix(s, suffix)`: drop the suffix when it
is present, otherwise return the string unchanged. -/
def trimSuffix (s suffix : String) : String :=
  if suffix.data.isSuffixOf s.data then ⟨s.data.take (s.data.length - suffix.data.length)⟩
  else s

/-- Model of Go `strings.Join(strings.Fields(s), " ")` (used by the spec
to state whitespace normalization): split on whitespace runs, drop empty
fields, re-join with single spaces. -/
def normalizeWs (s : String) : String :=
  ⟨List.intercalate [' '] ((s.data.splitOnP Char.isWhitespace).filter (fun w => !w.isEmpty))⟩

/-- JSON values, as far as the program inspects them.  Numbers carry no
payload the code ever reads. -/
inductive Json where
  | null
  | bool (b : Bool)
  | num (n : Int)
  | str (s : String)
  | arr (elems : List Json)
  | obj (fields : List (String × Json))

/-- One typed content block (`TextContent` in main.go): `{type, text}`. -/
structure TextContent where
  type : String
  text : String
deriving DecidableEq

/-- Last binding of a key in a JSON object; Go json decoding lets a
later duplicate key overwrite an earlier one. -/
def jsonField (fields : List (String × Json)) (k : String) : Option Json :=
  ((fields.filter (fun p => p.1 == k)).getLast?).map (fun p => p.2)

/-- Decoding a JSON value into a Go `string` field: a JSON string gives
its contents, `null` leaves the zero value, everything else errors. -/
def decodeStringField : Option Json → Option String
  | none => some ""
  | some Json.null => some ""
  | some (Json.str s) => some s
  | some _ => none

/-- Decoding one element of a `[]TextContent`: must be an object (or
`null`); the `type` and `text` fields, when present, must decode as
strings. -/
def decodeTextContent : Json → Option TextContent
  | Json.null => some { type := "", text := "" }
  | Json.obj fields => do
      let t ← decodeStringField (jsonField fields "type")
      let x ← decodeStringField (jsonField fields "text")
      pure { type := t, text := x }
  | _ => none

/-- Decoding a JSON value as Go `[]TextContent`: an array whose every
element decodes, or `null` (the nil slice). -/
def decodeTextContentArray : Json → Option (List TextContent)
  | Json.null => some []
  | Json.arr elems => elems.mapM decodeTextContent
  | _ => none

/-- Decoding a JSON value as a Go `string` (top level `json.Unmarshal`
into `&str`): a string succeeds, `null` leaves the zero value. -/
def decodeString : Json → Option String
  | Json.str s => some s
  | Json.null => some ""
  | _ => none

/-- From `extractText` (main.go:1015): a raw content value (`none`
models an absent / zero-length `json.RawMessage`) is tried as a plain
string, then as an array of typed blocks, keeping the `text` of blocks
with `type == "text"` and non-empty text, joined by single spaces;
otherwise the empty string. -/
def extractText : Option Json → String
  | none => ""
  | some j =>
    match decodeString j with
    | some s => s
    | none =>
      match decodeTextContentArray j with
      | some arr =>
          String.intercalate " "
            (((arr.filter (fun item => item.type == "text" && !(item.text == ""))).map
              (fun item => item.text)))
      | none => ""

/-- The claim C3 reading of the array branch, following the words of the
spec: the space-separated concatenation of the `text` field of every
block whose `type` equals "text", with no condition on the text being
non-empty. -/
def extractTextClaim : Option Json → String
  | none => ""
  | some j =>
    match decodeString j with
    | some s => s
    | none =>
      match decodeTextContentArray j with
      | some arr =>
          String.intercalate " "
            (((arr.filter (fun item => item.type == "text")).map
              (fun item => item.text)))
      | none => ""

/-- One conversation message (`Message` in main.go). -/
structure Message where
  role : String
  text : String
  ts : String
deriving DecidableEq

/-- A parsed conversation (`Conversation` in main.go). -/
structure Conversation where
  sessionID : String
  cwd : String
  firstTimestamp : String
  lastTimestamp : String
  messages : List Message
deriving DecidableEq

/-- One decoded transcript line (`RawMessage` in main.go); the nested
`message.content` raw value is carried as an optional JSON value. -/
structure RawMessage where
  type : String
  cwd : String
  content : Option Json
  timestamp : String

/-- A transcript file body as seen by the parsing loop: one entry per
line, `none` for a line on which `json.Unmarshal` fails. -/
abbrev TranscriptLines := List (Option RawMessage)

/-- The per-line body of the parsing loop in `parseConversationFile`
(main.go:1067-1091): a `user` line captures `cwd` on first occurrence,
then (for user and assistant lines) non-blank extracted text appends a
message, a user line also setting `firstTimestamp` on the first retained
message. -/
def processLine (conv : Conversation) (raw : RawMessage) : Conversation :=
  if raw.type == "user" then
    let conv := if conv.cwd == "" then { conv with cwd := raw.cwd } else conv
    let text := extractText raw.content
    if !(strTrim text == "") then
      let conv :=
        if conv.firstTimestamp == "" then { conv with firstTimestamp := raw.timestamp }
        else conv
      { conv with messages := conv.messages ++ [{ role := "user", text := text, ts := raw.timestamp }] }
    else conv
  else if raw.type == "assistant" then
    let text := extractText raw.content
    if !(strTrim text == "") then
      { conv with messages := conv.messages ++ [{ role := "assistant", text := text, ts := raw.timestamp }] }
    else conv
  else conv

/-- The scanning loop of `parseConversationFile` (main.go:1061-1092):
corrupt lines are skipped, decoded lines feed `processLine`. -/
def processLines (conv : Conversation) (lines : TranscriptLines) : Conversation :=
  lines.foldl (fun c l => match l with | none => c | some raw => processLine c raw) conv

/-- The tail of `parseConversationFile` (main.go:1094-1104): run the
line loop from an empty conversation; a file with zero retained messages
yields nothing, otherwise `lastTimestamp` comes from the final retained
message and `cwd` defaults to "unknown". -/
def parseLines (sessionID : String) (lines : TranscriptLines) : Option Conversation :=
  let conv := processLines
    { sessionID := sessionID, cwd := "", firstTimestamp := "", lastTimestamp := "", messages := [] }
    lines
  if conv.messages.isEmpty then none
  else
    some { conv with
      lastTimestamp := ((conv.messages.getLast?).map (fun m => m.ts)).getD "",
      cwd := if conv.cwd == "" then "unknown" else conv.cwd }

/-- Modelled from the spec: the admission filters of
`parse(path, ageCutoff, maxSizeBytes)` (spec section 4.2).  The version of
`parseConversationFile` in src takes only a path and checks only the
"agent-" prefix (main.go:1045-1047); the age and size parameters exist
only in the tests, so their checks are modelled from the words of the
spec: skip when the name has the "agent-" prefix, skip when a cutoff is
set and the modification time is older than it, skip when a nonzero
maximum size is exceeded; a zero or unset cutoff or size means no limit.
The stat results (name, mtime, size) and the decoded line sequence stand
in for the path. -/
def parseConversationFile (name : String) (modTime : Int) (size : Nat)
    (lines : TranscriptLines) (ageCutoff : Option Int) (maxSizeBytes : Nat) :
    Option Conversation :=
  if strStartsWith name "agent-" then none
  else if (match ageCutoff with | some cutoff => decide (modTime < cutoff) | none => false) then none
  else if maxSizeBytes != 0 && decide (maxSizeBytes < size) then none
  else parseLines (trimSuffix name ".jsonl") lines

/-- The first decoded line of type "user" carrying a non-empty `cwd`
(the value `parseConversationFile` retains, since assigning an empty
`cwd` leaves the field empty and later user lines may still set it). -/
def firstUserCwd : TranscriptLines → Option String
  | [] => none
  | none :: rest => firstUserCwd rest
  | some raw :: rest =>
      if raw.type == "user" && !(raw.cwd == "") then some raw.cwd
      else firstUserCwd rest

/-- Whether a line contributes a retained message: it decodes, its type
is user or assistant, and its extracted text is non-blank. -/
def lineRetains : Option RawMessage → Bool
  | none => false
  | some raw =>
      (raw.type == "user" || raw.type == "assistant")
        && !(strTrim (extractText raw.content) == "")

/-- The message a line contributes, if any. -/
def retainedMessage : Option RawMessage → Option Message
  | none => none
  | some raw =>
      if raw.type == "user" then
        let text := extractText raw.content
        if !(strTrim text == "") then some { role := "user", text := text, ts := raw.timestamp }
        else none
      else if raw.type == "assistant" then
        let text := extractText raw.content
        if !(strTrim text == "") then some { role := "assistant", text := text, ts := raw.timestamp }
        else none
      else none

/-- Lexicographic strictly-less on character lists; model of the Go
string comparison `<` (byte-wise lexicographic order agrees with
code-point order on UTF-8). -/
def listLt : List Char → List Char → Bool
  | _, [] => false
  | [], _ :: _ => true
  | a :: as, b :: bs => if a < b then true else if b < a then false else listLt as bs

/-- Model of Go string `<`. -/
def strLt (a b : String) : Bool :=
  listLt a.data b.data

/-- The sort key relation of `getConversations` (main.go:1152-1154):
`sort.Slice` with comparator `lastTimestamp` greater, so the sorted
output is non-increasing in the key: `convGE a b` says the key of `a`
is not below the key of `b`. -/
def convGE (a b : Conversation) : Prop :=
  strLt a.lastTimestamp b.lastTimestamp = false

instance : DecidableRel convGE := fun a b =>
  inferInstanceAs (Decidable (strLt a.lastTimestamp b.lastTimestamp = false))

/-- Strictly-greater key relation, used to compare sorted outputs when
keys are pairwise distinct. -/
def convGT (a b : Conversation) : Prop :=
  strLt b.lastTimestamp a.lastTimestamp = true

/-- The aggregation tail of `getConversations` (main.go:1147-1156): the
results received from the worker channel, in completion order, are
sorted by `lastTimestamp` descending.  The unstable `sort.Slice` is
modelled by an insertion sort with respect to the same comparator: any
comparison sort agrees with it on inputs with pairwise distinct keys,
and on tied keys its output likewise depends on the input order. -/
def aggregateConversations (results : List Conversation) : List Conversation :=
  List.insertionSort convGE results

/-- A list entry of the interactive view (`listItem` in main.go). -/
structure ListItem where
  conv : Conversation
  searchText : String
deriving DecidableEq

/-- Models the locale-dependent branch of `formatTimestamp`
(main.go:1159-1171): the argument function reports, for a timestamp
string, the local rendering of a successful RFC3339 parse, or `none`
when `time.Parse` fails.  An empty input gives the empty string; on
parse failure the first 16 characters (or the whole string when
shorter) are returned. -/
def formatTimestamp (fmtLocal : String → Option String) (ts : String) : String :=
  if ts == "" then ""
  else
    match fmtLocal ts with
    | some out => out
    | none => if 16 ≤ ts.data.length then ⟨ts.data.take 16⟩ else ts

/-- From `buildItems` (main.go:1182-1206): one item per conversation,
in order; its search text joins session ID, cwd, the two formatted
timestamps and the text of every user-role message with single
spaces. -/
def buildItems (fmtLocal : String → Option String) (conversations : List Conversation) :
    List ListItem :=
  conversations.map (fun conv =>
    { conv := conv,
      searchText :=
        String.intercalate " "
          ([conv.sessionID, conv.cwd,
            formatTimestamp fmtLocal conv.firstTimestamp,
            formatTimestamp fmtLocal conv.lastTimestamp]
            ++ ((conv.messages.filter (fun m => m.role == "user")).map (fun m => m.text))) })

/-- The claim C9 reading of the search text: the same concatenation,
whitespace-normalized. -/
def claimSearchText (fmtLocal : String → Option String) (conv : Conversation) : String :=
  normalizeWs
    (String.intercalate " "
      ([conv.sessionID, conv.cwd,
        formatTimestamp fmtLocal conv.firstTimestamp,
        formatTimestamp fmtLocal conv.lastTimestamp]
        ++ ((conv.messages.filter (fun m => m.role == "user")).map (fun m => m.text))))

/-- The interactive state (`model` in main.go), with the
delete-confirmation fields of the tested version (`confirmDelete`,
`deleteIndex`, `errorMsg`). The text input is carried as its string
value. -/
structure Model where
  items : List ListItem
  filtered : List ListItem
  query : String
  cursor : Int
  previewScroll : Int
  width : Nat
  height : Nat
  listHeight : Nat
  mouseInPreview : Bool
  selected : Option Conversation
  quitting : Bool
  confirmDelete : Bool
  deleteIndex : Int
  errorMsg : String
deriving DecidableEq

/-- From `updateFilter` (main.go:618-637): an empty query keeps every
item, otherwise items whose lower-cased search text contains the
lower-cased query; a cursor at or beyond the new length is pulled back
to the last index (floor 0); the preview scroll is reset. -/
def updateFilter (m : Model) : Model :=
  let filtered :=
    if m.query == "" then m.items
    else
      let queryLower := lowerStr m.query
      m.items.filter (fun item => strContains (lowerStr item.searchText) queryLower)
  let cursor :=
    if (filtered.length : Int) ≤ m.cursor then max 0 ((filtered.length : Int) - 1)
    else m.cursor
  { m with filtered := filtered, cursor := cursor, previewScroll := 0 }

/-- From `initialModel` (main.go:601-616): the initial filter query is
installed and `updateFilter` run once. -/
def initialModel (items : List ListItem) (filterQuery : String) : Model :=
  updateFilter
    { items := items, filtered := [], query := filterQuery, cursor := 0,
      previewScroll := 0, width := 0, height := 0, listHeight := 0,
      mouseInPreview := false, selected := none, quitting := false,
      confirmDelete := false, deleteIndex := 0, errorMsg := "" }

/-- Input events delivered to the state machine.  Printable keys reach
the text input and are modelled by `textEdit` with the resulting value;
`keyYes` carries the outcome of the file removal it triggers. -/
inductive InputMsg where
  | windowSize (w h : Nat)
  | wheelUp (y : Nat)
  | wheelDown (y : Nat)
  | keyUp
  | keyDown
  | keyPgUp
  | keyPgDown
  | keyCtrlU
  | keyEnter
  | keyEsc
  | textEdit (value : String)
  | keyCtrlD
  | keyYes (removeOk : Bool)
  | keyNo

/-- From `Update` (main.go:643-734), the browsing-mode transitions:
resize recomputes the list height (30 percent of the height, floor 3);
wheel events classify the pointer against the list band and either
scroll the preview or move the cursor; arrow keys move the cursor
clamped to the ends; page keys scroll the preview; ctrl+u clears the
query; enter records the selection; escape quits; a text edit reruns
the filter when the value changed. -/
def update (m : Model) (msg : InputMsg) : Model :=
  match msg with
  | InputMsg.windowSize w h =>
      let lh := h * 30 / 100
      { m with width := w, height := h, listHeight := if lh < 3 then 3 else lh }
  | InputMsg.wheelUp y =>
      let inPreview := decide (2 + m.listHeight < y)
      let m := { m with mouseInPreview := inPreview }
      if inPreview then { m with previewScroll := max 0 (m.previewScroll - 3) }
      else if 0 < m.cursor then { m with cursor := m.cursor - 1, previewScroll := 0 }
      else m
  | InputMsg.wheelDown y =>
      let inPreview := decide (2 + m.listHeight < y)
      let m := { m with mouseInPreview := inPreview }
      if inPreview then { m with previewScroll := m.previewScroll + 3 }
      else if m.cursor < (m.filtered.length : Int) - 1 then
        { m with cursor := m.cursor + 1, previewScroll := 0 }
      else m
  | InputMsg.keyUp =>
      if 0 < m.cursor then { m with cursor := m.cursor - 1, previewScroll := 0 } else m
  | InputMsg.keyDown =>
      if m.cursor < (m.filtered.length : Int) - 1 then
        { m with cursor := m.cursor + 1, previewScroll := 0 }
      else m
  | InputMsg.keyPgUp => { m with previewScroll := max 0 (m.previewScroll - 10) }
  | InputMsg.keyPgDown => { m with previewScroll := m.previewScroll + 10 }
  | InputMsg.keyCtrlU => updateFilter { m with query := "" }
  | InputMsg.keyEnter =>
      if 0 < m.filtered.length then
        { m with selected := (m.filtered.get? m.cursor.toNat).map (fun it => it.conv),
                 quitting := true }
      else { m with quitting := true }
  | InputMsg.keyEsc => { m with quitting := true }
  | InputMsg.textEdit v =>
      if v == m.query then { m with query := v }
      else updateFilter { m with query := v }
  | InputMsg.keyCtrlD => m
  | InputMsg.keyYes _ => m
  | InputMsg.keyNo => m

/-- Modelled from the spec: the confirmed deletion (spec section 4.5 and
the tests around `deleteConversation`; the function body is not in src).
An out-of-range `deleteIndex` is a guarded no-op.  Otherwise, with the
file removal outcome given by `removeOk`: on success the confirmed entry
leaves `filtered` at its index and `items` loses the first entry with the
same session ID, the cursor is clamped into the new bounds and any prior
error is cleared; on failure both collections stay unchanged and an
error message is set.  Both outcomes leave confirmation mode. -/
def deleteConversation (removeOk : Bool) (m : Model) : Model :=
  if m.deleteIndex < 0 then m
  else
    let d := m.deleteIndex.toNat
    match m.filtered.get? d with
    | none => m
    | some victim =>
      if removeOk then
        let filtered := m.filtered.eraseIdx d
        let items := m.items.eraseP (fun it => it.conv.sessionID == victim.conv.sessionID)
        let cursor :=
          if (filtered.length : Int) ≤ m.cursor then max 0 ((filtered.length : Int) - 1)
          else m.cursor
        { m with items := items, filtered := filtered, cursor := cursor,
                 errorMsg := "", confirmDelete := false }
      else
        { m with errorMsg := "failed to delete conversation file",
                 confirmDelete := false }

/-- Modelled from the spec: delete-confirmation sub-state handling
(spec section 4.5; the tested version of `Update`, not in src).  While
confirming, only yes, no and escape are handled; every other input is
ignored. -/
def stepConfirm (m : Model) (msg : InputMsg) : Model :=
  match msg with
  | InputMsg.keyYes removeOk => deleteConversation removeOk m
  | InputMsg.keyNo => { m with confirmDelete := false }
  | InputMsg.keyEsc => { m with confirmDelete := false }
  | _ => m

/-- The full transition function: confirmation mode routes to
`stepConfirm`; in browsing mode ctrl+d (modelled from the spec, only
when an item is selected) enters confirmation with the cursor captured,
and every other event follows `update`. -/
def step (m : Model) (msg : InputMsg) : Model :=
  if m.confirmDelete then stepConfirm m msg
  else
    match msg with
    | InputMsg.keyCtrlD =>
        if 0 < m.filtered.length then
          { m with confirmDelete := true, deleteIndex := m.cursor }
        else m
    | _ => update m msg

/-- The cursor invariant of the claim set: within bounds when the
filtered list is non-empty, and pinned to 0 when it is empty. -/
def cursorInv (m : Model) : Prop :=
  (m.filtered ≠ [] → 0 ≤ m.cursor ∧ m.cursor < (m.filtered.length : Int))
    ∧ (m.filtered = [] → m.cursor = 0)

/-- Whether the message at an index of a conversation textually contains
a query, case-insensitively; indices past the end never match. -/
def msgContains (conv : Conversation) (query : String) (i : Nat) : Bool :=
  match conv.messages.get? i with
  | some msg => strContains (lowerStr msg.text) (lowerStr query)
  | none => false

/-- From `renderPreview` (main.go:871-879): the match set is only built
for a non-empty query. -/
def matchesAt (conv : Conversation) (query : String) (i : Nat) : Bool :=
  !(query == "") && msgContains conv query i

/-- From `renderPreview` (main.go:881-903): an index is shown when it is
among the first two or last two, or within one position of a match (the
left neighbour only for a match below the last index, per the
`idx < len-1` guard). -/
def showIdx (conv : Conversation) (query : String) (i : Nat) : Bool :=
  let n := conv.messages.length
  (decide (i < 2) && decide (i < n))
    || (decide (n ≤ i + 2) && decide (i < n))
    || matchesAt conv query i
    || matchesAt conv query (i + 1)
    || (decide (1 ≤ i) && matchesAt conv query (i - 1) && decide (i < n))

/-- The claim C8 reading of the shown set, following the words of the
spec: the first two indices, the last two indices, and every index
within one position of a message containing the query
case-insensitively, with no condition on the query being non-empty. -/
def claimShowIdx (conv : Conversation) (query : String) (i : Nat) : Bool :=
  let n := conv.messages.length
  decide (i < 2) || decide (n ≤ i + 2)
    || (List.range n).any (fun j =>
        decide ((if i ≤ j then j - i else i - j) ≤ 1) && msgContains conv query j)

/-- The preview body at message granularity: a shown message or a
skipped-messages marker carrying its count. -/
inductive PreviewToken where
  | skip (count : Nat)
  | msg (idx : Nat)
deriving DecidableEq

/-- The marker emitted before a shown index: a single skip token when
there is a gap to the previously shown index (or to the start of the
conversation). -/
def gapMarker (last : Option Nat) (i : Nat) : List PreviewToken :=
  match last with
  | some l => if l + 1 < i then [PreviewToken.skip (i - l - 1)] else []
  | none => if 0 < i then [PreviewToken.skip i] else []

/-- From the display loop of `renderPreview` (main.go:906-949),
abstracted to tokens: indices are visited in order, shown ones emit a
gap marker and a message token. -/
def renderLoop (shown : Nat → Bool) : List Nat → Option Nat → List PreviewToken
  | [], _ => []
  | i :: rest, last =>
      if shown i then gapMarker last i ++ PreviewToken.msg i :: renderLoop shown rest (some i)
      else renderLoop shown rest last

/-- The token-level preview of `renderPreview` (main.go:857-954): the
display loop over all indices followed by the trailing more-messages
marker. -/
def previewSkeleton (conv : Conversation) (query : String) : List PreviewToken :=
  let n := conv.messages.length
  let shown := fun i => showIdx conv query i
  let toks := renderLoop shown (List.range n) none
  toks ++
    (match ((List.range n).filter shown).getLast? with
     | none => if 0 < n then [PreviewToken.skip n] else []
     | some l => if l + 1 < n then [PreviewToken.skip (n - 1 - l)] else [])

/-- The claim C8 reading of the emitted sequence: the displayed indices
in original order, each gap between consecutive displayed indices
replaced by a single skipped-messages marker. -/
def claimSkeleton : List Nat → List PreviewToken
  | [] => []
  | i :: rest => PreviewToken.msg i :: renderLoop (fun _ => true) rest (some i)

/-! Concrete inputs used by witnesses and counterexamples. -/

/-- A conversation with empty timestamps and one user message whose text
holds a double space. -/
def wsConv : Conversation :=
  { sessionID := "s", cwd := "/p", firstTimestamp := "", lastTimestamp := "",
    messages := [{ role := "user", text := "a  b", ts := "" }] }

/-- A conversation with no messages and tied sort key "t". -/
def tieConvA : Conversation :=
  { sessionID := "a", cwd := "p", firstTimestamp := "t", lastTimestamp := "t", messages := [] }

/-- A second conversation with the same sort key "t". -/
def tieConvB : Conversation :=
  { sessionID := "b", cwd := "q", firstTimestamp := "t", lastTimestamp := "t", messages := [] }

/-- A conversation whose sort key "t1" differs from `tieConvA`. -/
def keyConvC : Conversation :=
  { sessionID := "c", cwd := "r", firstTimestamp := "t1", lastTimestamp := "t1", messages := [] }

/-- A list item over `tieConvA` with the given search text. -/
def itemOf (st : String) : ListItem :=
  { conv := tieConvA, searchText := st }

/-- Three items of which exactly one matches "hello" case-insensitively. -/
def scenarioItems : List ListItem :=
  [itemOf "say HELLO there", itemOf "goodbye world", itemOf "nothing here"]

/-- The scenario model: the three items, query "hello", cursor at 2. -/
def scenarioModel : Model :=
  { (initialModel scenarioItems "") with query := "hello", cursor := 2 }

/-- A transcript: a valid user line, a corrupt line, a valid user line. -/
def sandwichLines : TranscriptLines :=
  [some { type := "user", cwd := "/p", content := some (Json.str "hello"), timestamp := "t1" },
   none,
   some { type := "user", cwd := "", content := some (Json.str "bye"), timestamp := "t2" }]

/-- A transcript holding only a line of unrecognized type. -/
def summaryOnlyLines : TranscriptLines :=
  [some { type := "summary", cwd := "", content := some (Json.str "x"), timestamp := "t" }]

/-- A transcript whose first user line has blank text but a cwd, followed
by a user line with text and a different cwd. -/
def cwdLines : TranscriptLines :=
  [some { type := "user", cwd := "/first", content := some (Json.str "   "), timestamp := "t0" },
   some { type := "user", cwd := "/second", content := some (Json.str "hi"), timestamp := "t1" }]

/-- A conversation with five user messages "0" .. "4". -/
def fiveConv : Conversation :=
  { sessionID := "s", cwd := "p", firstTimestamp := "", lastTimestamp := "",
    messages := (List.range 5).map (fun _ => { role := "user", text := "m", ts := "" }) }

/-- A conversation with nine messages, message 5 containing "hello". -/
def nineConv : Conversation :=
  { sessionID := "s", cwd := "p", firstTimestamp := "", lastTimestamp := "",
    messages := (List.range 9).map
      (fun i => { role := "user", text := if i == 5 then "say hello now" else "x", ts := "" }) }

/-- A two-item model primed for deletion of the entry at index 0. -/
def deleteModel : Model :=
  { (initialModel [itemOf "first", itemOf "second"] "") with
      confirmDelete := true, deleteIndex := 0 }

/-! Helper lemmas. -/

theorem listInfix_nil_left (l : List Char) : listInfix ([] : List Char) l = true := by
  cases l <;> simp [listInfix, List.isPrefixOf]

theorem strContains_empty_right (s : String) : strContains s "" = true :=
  listInfix_nil_left s.data

/-! C3: the text extractor. -/

/-- C3 counterexample: the claim says the array branch keeps the `text`
of every block whose `type` is "text"; on a block with empty text the
code drops the block, so the code returns "a" where the claim prescribes
" a". -/
theorem extractText_claim_cex :
    extractText (some (Json.arr
        [Json.obj [("type", Json.str "text"), ("text", Json.str "")],
         Json.obj [("type", Json.str "text"), ("text", Json.str "a")]])) = "a"
    ∧ extractTextClaim (some (Json.arr
        [Json.obj [("type", Json.str "text"), ("text", Json.str "")],
         Json.obj [("type", Json.str "text"), ("text", Json.str "a")]])) = " a"
    ∧ ("a" : String) ≠ " a" := by
  refine ⟨rfl, rfl, by decide⟩

/-- C3 (amended): `extractText` is total; a value decoding as a JSON
string is returned verbatim; a value decoding as an array of typed
blocks (and not as a string) yields the space-separated concatenation of
the `text` of every block whose `type` equals "text" AND whose text is
non-empty, in original order; any other or empty value yields the empty
string. -/
theorem extractText_amended :
    extractText none = ""
    ∧ (∀ s, extractText (some (Json.str s)) = s)
    ∧ (∀ j blocks, decodeString j = none → decodeTextContentArray j = some blocks →
        extractText (some j) =
          String.intercalate " "
            ((blocks.filter (fun b => b.type == "text" && !(b.text == ""))).map
              (fun b => b.text)))
    ∧ (∀ j, decodeString j = none → decodeTextContentArray j = none →
        extractText (some j) = "") := by
  refine ⟨rfl, fun s => rfl, ?_, ?_⟩
  · intro j blocks h1 h2
    simp [extractText, h1, h2]
  · intro j h1 h2
    simp [extractText, h1, h2]

/-- C3 witness: the amended array-branch statement evaluated on a mixed
array with a non-text block. -/
theorem extractText_amended_witness :
    extractText (some (Json.arr
        [Json.obj [("type", Json.str "text"), ("text", Json.str "hello")],
         Json.obj [("type", Json.str "tool_use"), ("text", Json.str "zzz")],
         Json.obj [("type", Json.str "text"), ("text", Json.str "world")]])) = "hello world" := by
  have h := extractText_amended.2.2.1
    (Json.arr
      [Json.obj [("type", Json.str "text"), ("text", Json.str "hello")],
       Json.obj [("type", Json.str "tool_use"), ("text", Json.str "zzz")],
       Json.obj [("type", Json.str "text"), ("text", Json.str "world")]])
    [{ type := "text", text := "hello" }, { type := "tool_use", text := "zzz" },
     { type := "text", text := "world" }]
    rfl rfl
  exact h.trans (by decide)

/-! C1: the filter transition. -/

/-- C1: after `updateFilter`, the filtered list is exactly the items
whose search text contains the query case-insensitively, in original
relative order (and is the full item list for the empty query); the
cursor becomes min(cursor, len(filtered)-1) floored at 0; the preview
scroll is reset to 0. -/
theorem updateFilter_spec (m : Model) (hc : 0 ≤ m.cursor) :
    (updateFilter m).filtered
        = m.items.filter (fun item => strContains (lowerStr item.searchText) (lowerStr m.query))
    ∧ (m.query = "" → (updateFilter m).filtered = m.items)
    ∧ (updateFilter m).cursor
        = max 0 (min m.cursor (((updateFilter m).filtered.length : Int) - 1))
    ∧ (updateFilter m).previewScroll = 0 := by
  have hempty : ∀ item ∈ m.items,
      strContains (lowerStr item.searchText) (lowerStr "") = true := by
    intro item _
    rw [show lowerStr "" = "" from rfl]
    exact strContains_empty_right _
  have hfil : (updateFilter m).filtered
      = m.items.filter (fun item => strContains (lowerStr item.searchText) (lowerStr m.query)) := by
    by_cases hq : m.query = ""
    · have h1 : (updateFilter m).filtered = m.items := by simp [updateFilter, hq]
      rw [h1, hq]
      exact (List.filter_eq_self.mpr hempty).symm
    · simp [updateFilter, hq]
  refine ⟨hfil, ?_, ?_, ?_⟩
  · intro hq
    rw [hfil, hq]
    exact List.filter_eq_self.mpr hempty
  · show (if ((updateFilter m).filtered.length : Int) ≤ m.cursor then
        max 0 (((updateFilter m).filtered.length : Int) - 1) else m.cursor)
      = max 0 (min m.cursor (((updateFilter m).filtered.length : Int) - 1))
    split <;> omega
  · rfl

/-- C1 witness: the end-to-end scenario of three items of which exactly
one contains "hello" case-varied; the filtered set has size one and the
cursor is pulled back in range. -/
theorem updateFilter_spec_witness :
    (updateFilter scenarioModel).filtered
        = scenarioModel.items.filter
            (fun item => strContains (lowerStr item.searchText) (lowerStr scenarioModel.query))
    ∧ (updateFilter scenarioModel).filtered.length = 1
    ∧ (updateFilter scenarioModel).cursor = 0 := by
  have h := updateFilter_spec scenarioModel (by decide)
  exact ⟨h.1, by decide, by decide⟩

/-! C2 and C10: the parsing loop. -/

theorem retainedMessage_none_iff (l : Option RawMessage) :
    retainedMessage l = none ↔ lineRetains l = false := by
  cases l with
  | none => simp [retainedMessage, lineRetains]
  | some raw =>
      by_cases hu : raw.type == "user"
      · by_cases ht : strTrim (extractText raw.content) == "" <;>
          simp [retainedMessage, lineRetains, hu, ht]
      · by_cases ha : raw.type == "assistant"
        · by_cases ht : strTrim (extractText raw.content) == "" <;>
            simp [retainedMessage, lineRetains, hu, ha, ht]
        · simp [retainedMessage, lineRetains, hu, ha]

theorem processLine_messages (conv : Conversation) (raw : RawMessage) :
    (processLine conv raw).messages
      = conv.messages ++ (retainedMessage (some raw)).toList := by
  by_cases hu : raw.type == "user"
  · by_cases ht : strTrim (extractText raw.content) == ""
    · by_cases hc : conv.cwd == "" <;> simp [processLine, retainedMessage, hu, ht, hc]
    · by_cases hf : conv.firstTimestamp == "" <;>
        by_cases hc : conv.cwd == "" <;>
          simp [processLine, retainedMessage, hu, ht, hf, hc]
  · by_cases ha : raw.type == "assistant"
    · by_cases ht : strTrim (extractText raw.content) == "" <;>
        simp [processLine, retainedMessage, hu, ha, ht]
    · simp [processLine, retainedMessage, hu, ha]

theorem processLines_cons (conv : Conversation) (l : Option RawMessage)
    (rest : TranscriptLines) :
    processLines conv (l :: rest)
      = processLines (match l with | none => conv | some raw => processLine conv raw) rest := rfl

theorem processLines_messages_nil :
    ∀ (lines : TranscriptLines) (conv : Conversation),
      (processLines conv lines).messages = []
        ↔ conv.messages = [] ∧ ∀ l ∈ lines, lineRetains l = false := by
  intro lines
  induction lines with
  | nil => intro conv; simp [processLines]
  | cons l rest ih =>
      intro conv
      rw [processLines_cons]
      cases l with
      | none => simp [ih, lineRetains]
      | some raw =>
          rw [ih]
          have hm := processLine_messages conv raw
          constructor
          · rintro ⟨h1, h2⟩
            rw [hm] at h1
            rcases List.append_eq_nil.mp h1 with ⟨hc, hr⟩
            have : lineRetains (some raw) = false := by
              rw [← retainedMessage_none_iff]
              cases hrm : retainedMessage (some raw) with
              | none => rfl
              | some msg => rw [hrm] at hr; simp at hr
            exact ⟨hc, by simpa [this] using h2⟩
          · rintro ⟨h1, h2⟩
            have hret : lineRetains (some raw) = false := h2 (some raw) (by simp)
            have : retainedMessage (some raw) = none := retainedMessage_none_iff _ |>.mpr hret
            refine ⟨?_, fun l hl => h2 l (by simp [hl])⟩
            rw [hm, this, h1]
            rfl

theorem lineRetains_some_iff (raw : RawMessage) :
    lineRetains (some raw) = true
      ↔ (raw.type = "user" ∨ raw.type = "assistant")
          ∧ strTrim (extractText raw.content) ≠ "" := by
  simp [lineRetains]

/-- C2: an admitted transcript yields a Conversation iff some line
decodes with type user or assistant and non-blank extracted text; a
corrupt line between two valid user lines leaves a conversation with
exactly two messages; a file of only unrecognized types yields none. -/
theorem parseLines_some_iff :
    (∀ (sessionID : String) (lines : TranscriptLines),
        (parseLines sessionID lines).isSome = true
          ↔ ∃ raw, some raw ∈ lines
              ∧ (raw.type = "user" ∨ raw.type = "assistant")
              ∧ strTrim (extractText raw.content) ≠ "")
    ∧ (parseLines "s" sandwichLines).map (fun c => c.messages.length) = some 2
    ∧ parseLines "s" summaryOnlyLines = none := by
  refine ⟨?_, by decide, by decide⟩
  intro sessionID lines
  have hnil := processLines_messages_nil lines
    { sessionID := sessionID, cwd := "", firstTimestamp := "", lastTimestamp := "", messages := [] }
  constructor
  · intro h
    rw [parseLines] at h
    by_cases he : (processLines
        { sessionID := sessionID, cwd := "", firstTimestamp := "", lastTimestamp := "",
          messages := [] } lines).messages.isEmpty
    · rw [if_pos he] at h; simp at h
    · have : ¬ ∀ l ∈ lines, lineRetains l = false := by
        intro hall
        exact he (by simp [List.isEmpty_iff, hnil.mpr ⟨rfl, hall⟩])
      push_neg at this
      obtain ⟨l, hl, hne⟩ := this
      cases l with
      | none => exact absurd (by simp [lineRetains]) hne
      | some raw =>
          refine ⟨raw, hl, ?_⟩
          exact (lineRetains_some_iff raw).mp (by simpa using hne)
  · rintro ⟨raw, hl, hprops⟩
    rw [parseLines]
    have hret : lineRetains (some raw) = true := (lineRetains_some_iff raw).mpr hprops
    have hne : ¬ (processLines
        { sessionID := sessionID, cwd := "", firstTimestamp := "", lastTimestamp := "",
          messages := [] } lines).messages.isEmpty := by
      rw [List.isEmpty_iff, hnil]
      rintro ⟨-, hall⟩
      rw [hall (some raw) hl] at hret
      exact Bool.false_ne_true hret
    rw [if_neg hne]
    rfl

theorem processLine_cwd (conv : Conversation) (raw : RawMessage) :
    (processLine conv raw).cwd
      = if conv.cwd == "" && raw.type == "user" then raw.cwd else conv.cwd := by
  by_cases hu : raw.type == "user"
  · by_cases hc : conv.cwd == ""
    · by_cases ht : strTrim (extractText raw.content) == "" <;>
        by_cases hf : conv.firstTimestamp == "" <;>
          simp [processLine, hu, hc, ht, hf]
    · by_cases ht : strTrim (extractText raw.content) == "" <;>
        by_cases hf : conv.firstTimestamp == "" <;>
          simp [processLine, hu, hc, ht, hf]
  · by_cases ha : raw.type == "assistant"
    · by_cases ht : strTrim (extractText raw.content) == "" <;>
        simp [processLine, hu, ha, ht]
    · simp [processLine, hu, ha]

theorem processLines_cwd :
    ∀ (lines : TranscriptLines) (conv : Conversation),
      (processLines conv lines).cwd
        = if conv.cwd == "" then (firstUserCwd lines).getD "" else conv.cwd := by
  intro lines
  induction lines with
  | nil =>
      intro conv
      by_cases hc : conv.cwd == "" <;> simp_all [processLines, firstUserCwd]
  | cons l rest ih =>
      intro conv
      rw [processLines_cons]
      cases l with
      | none =>
          rw [ih]
          rfl
      | some raw =>
          rw [ih, processLine_cwd]
          by_cases hu : raw.type == "user"
          · by_cases hc : conv.cwd == ""
            · by_cases hrc : raw.cwd == ""
              · have h0 : raw.cwd = "" := by simpa using hrc
                simp [firstUserCwd, hu, hc, hrc, h0]
              · simp [firstUserCwd, hu, hc, hrc]
            · simp [firstUserCwd, hu, hc]
          · simp [firstUserCwd, hu]

theorem firstUserCwd_ne_empty :
    ∀ (lines : TranscriptLines) (c : String), firstUserCwd lines = some c → ¬ c = "" := by
  intro lines
  induction lines with
  | nil => intro c h; exact absurd h (by simp [firstUserCwd])
  | cons l rest ih =>
      intro c h
      cases l with
      | none => exact ih c h
      | some raw =>
          by_cases hg : raw.type == "user" && !(raw.cwd == "")
          · rw [firstUserCwd, if_pos hg] at h
            have hrc : raw.cwd = c := by simpa using h
            rcases (Bool.and_eq_true _ _).mp hg with ⟨-, h2⟩
            intro hc
            rw [hrc, hc] at h2
            simp at h2
          · rw [firstUserCwd, if_neg hg] at h
            exact ih c h

/-- C10: the cwd of a parsed conversation comes from the first decodable
user-type line with a non-empty cwd field (even when that line retains
no message), lines of other types never set it, and it defaults to
"unknown". -/
theorem parseLines_cwd_spec (sessionID : String) (lines : TranscriptLines)
    (conv : Conversation) (h : parseLines sessionID lines = some conv) :
    conv.cwd = (firstUserCwd lines).getD "unknown" := by
  rw [parseLines] at h
  by_cases he : (processLines
      { sessionID := sessionID, cwd := "", firstTimestamp := "", lastTimestamp := "",
        messages := [] } lines).messages.isEmpty
  · rw [if_pos he] at h; exact absurd h (by simp)
  · rw [if_neg he] at h
    have hc := Option.some_inj.mp h
    have hcwd : (processLines
        { sessionID := sessionID, cwd := "", firstTimestamp := "", lastTimestamp := "",
          messages := [] } lines).cwd = (firstUserCwd lines).getD "" := by
      have h0 := processLines_cwd lines
        { sessionID := sessionID, cwd := "", firstTimestamp := "", lastTimestamp := "",
          messages := [] }
      simpa using h0
    have hproj : conv.cwd =
        (if (processLines
            { sessionID := sessionID, cwd := "", firstTimestamp := "", lastTimestamp := "",
              messages := [] } lines).cwd == "" then "unknown"
         else (processLines
            { sessionID := sessionID, cwd := "", firstTimestamp := "", lastTimestamp := "",
              messages := [] } lines).cwd) := by
      rw [← hc]
    rw [hproj, hcwd]
    cases hf : firstUserCwd lines with
    | none => simp
    | some c =>
        have := firstUserCwd_ne_empty lines c hf
        simp [this]

/-- C10 witness: the first user line has blank text but carries a cwd;
the parsed conversation keeps that cwd. -/
theorem parseLines_cwd_spec_witness :
    (parseLines "s" cwdLines).map (fun c => c.cwd) = some "/first" := by
  cases hp : parseLines "s" cwdLines with
  | none => exact absurd hp (by decide)
  | some c =>
      have h := parseLines_cwd_spec "s" cwdLines c hp
      rw [Option.map_some', h]
      decide

/-! C9: the index builder. -/

/-- C9 counterexample: the claim says searchText is whitespace
normalized; on a conversation with empty formatted timestamps and a user
message holding a double space the code keeps the whitespace runs, so
the built searchText differs from its normalized form. -/
theorem buildItems_claim_cex :
    (buildItems (fun _ => none) [wsConv]).map (fun it => it.searchText) = ["s /p   a  b"]
    ∧ claimSearchText (fun _ => none) wsConv = "s /p a b"
    ∧ ("s /p   a  b" : String) ≠ "s /p a b" := by
  refine ⟨by decide, by decide, by decide⟩

/-- C9 (amended): build produces exactly one ListItem per input
Conversation, in input order, including conversations with zero
user-role messages; each searchText is the single-space-joined
concatenation of session ID, working directory, the formatted first and
last timestamps, and the text of every user-role message, with each
component's internal whitespace preserved (not whitespace-normalized). -/
theorem buildItems_spec (fmtLocal : String → Option String) (convs : List Conversation) :
    (buildItems fmtLocal convs).length = convs.length
    ∧ ∀ i : Nat,
        ((buildItems fmtLocal convs)[i]?).map (fun it => it.conv) = convs[i]?
        ∧ ((buildItems fmtLocal convs)[i]?).map (fun it => it.searchText)
            = (convs[i]?).map (fun conv =>
                String.intercalate " "
                  ([conv.sessionID, conv.cwd,
                    formatTimestamp fmtLocal conv.firstTimestamp,
                    formatTimestamp fmtLocal conv.lastTimestamp]
                    ++ ((conv.messages.filter (fun m => m.role == "user")).map
                        (fun m => m.text)))) := by
  constructor
  · simp [buildItems]
  · intro i
    cases hg : convs[i]? with
    | none => simp [buildItems, List.getElem?_map, hg]
    | some conv => simp [buildItems, List.getElem?_map, hg]

/-! C7: the scan aggregation order. -/

theorem listLt_asymm : ∀ a b : List Char, listLt a b = true → listLt b a = false := by
  intro a
  induction a with
  | nil =>
      intro b _
      cases b with
      | nil => rfl
      | cons y ys => rfl
  | cons x xs ih =>
      intro b h
      cases b with
      | nil => simp [listLt] at h
      | cons y ys =>
          by_cases hxy : x < y
          · have hyx : ¬ y < x := lt_asymm hxy
            simp [listLt, hxy, hyx]
          · by_cases hyx : y < x
            · simp [listLt, hxy, hyx] at h
            · simp [listLt, hxy, hyx] at h ⊢
              exact ih ys h

theorem listLt_neg_trans :
    ∀ a b c : List Char, listLt a b = false → listLt b c = false → listLt a c = false := by
  intro a
  induction a with
  | nil =>
      intro b c h1 h2
      cases b with
      | nil =>
          cases c with
          | nil => rfl
          | cons z zs => simp [listLt] at h2
      | cons y ys => simp [listLt] at h1
  | cons x xs ih =>
      intro b c h1 h2
      cases c with
      | nil => rfl
      | cons z zs =>
          cases b with
          | nil => simp [listLt] at h2
          | cons y ys =>
              by_cases hxy : x < y
              · simp [listLt, hxy] at h1
              · by_cases hyz : y < z
                · simp [listLt, hyz] at h2
                · by_cases hxz : x < z
                  · exact absurd (lt_of_lt_of_le hxz
                      (le_trans (le_of_not_lt hyz) (le_of_not_lt hxy))) (lt_irrefl x)
                  · by_cases hzx : z < x
                    · simp [listLt, hxz, hzx]
                    · have hxzeq : x = z := le_antisymm (le_of_not_lt hzx) (le_of_not_lt hxz)
                      have hyeq : y = x :=
                        le_antisymm (le_of_not_lt hxy) (hxzeq ▸ le_of_not_lt hyz)
                      have hyx : ¬ y < x := by rw [hyeq]; exact lt_irrefl x
                      have hzy : ¬ z < y := by rw [hyeq, ← hxzeq]; exact lt_irrefl x
                      simp [listLt, hxy, hyx] at h1
                      simp [listLt, hyz, hzy] at h2
                      simp [listLt, hxz, hzx]
                      exact ih ys zs h1 h2

theorem listLt_false_of_ne :
    ∀ a b : List Char, listLt a b = false → a ≠ b → listLt b a = true := by
  intro a
  induction a with
  | nil =>
      intro b h1 h2
      cases b with
      | nil => exact absurd rfl h2
      | cons y ys => simp [listLt] at h1
  | cons x xs ih =>
      intro b h1 h2
      cases b with
      | nil => rfl
      | cons y ys =>
          by_cases hxy : x < y
          · simp [listLt, hxy] at h1
          · by_cases hyx : y < x
            · simp [listLt, hyx]
            · have hx : x = y := le_antisymm (le_of_not_lt hyx) (le_of_not_lt hxy)
              have hne : xs ≠ ys := by
                intro he
                exact h2 (by rw [hx, he])
              simp [listLt, hxy, hyx] at h1 ⊢
              exact ih ys h1 hne

instance : IsTotal Conversation convGE := by
  constructor
  intro a b
  by_cases h : strLt a.lastTimestamp b.lastTimestamp = true
  · exact Or.inr (listLt_asymm _ _ h)
  · exact Or.inl (Bool.eq_false_iff.mpr h)

instance : IsTrans Conversation convGE := by
  constructor
  intro a b c h1 h2
  exact listLt_neg_trans _ _ _ h1 h2

instance : IsAntisymm Conversation convGT := by
  constructor
  intro a b h1 h2
  have h3 : listLt a.lastTimestamp.data b.lastTimestamp.data = false := listLt_asymm _ _ h1
  have h4 : listLt a.lastTimestamp.data b.lastTimestamp.data = true := h2
  rw [h3] at h4
  exact absurd h4 Bool.false_ne_true

theorem strings_ne_data_ne {a b : String} (h : a ≠ b) : a.data ≠ b.data := by
  intro hd
  cases a; cases b
  simp at hd
  exact h (by rw [hd])

/-- C7 counterexample: two parse results with equal lastTimestamp; the
two aggregation orders are permutations of each other but produce
different output sequences. -/
theorem getConversations_sort_cex :
    ([tieConvA, tieConvB] : List Conversation).Perm [tieConvB, tieConvA]
    ∧ aggregateConversations [tieConvA, tieConvB]
        ≠ aggregateConversations [tieConvB, tieConvA] := by
  refine ⟨List.Perm.swap tieConvB tieConvA [], by decide⟩

/-- C7 (amended): for EVERY list of parse results, tied keys included,
the aggregation is sorted by lastTimestamp descending and is a
permutation of the results; additionally, when the results carry
pairwise distinct lastTimestamps the output is identical across every
aggregation order (with tied keys the relative order of the tied
conversations may depend on completion order, as the counterexample
shows). -/
theorem getConversations_sort_spec :
    (∀ l : List Conversation,
        List.Sorted convGE (aggregateConversations l)
        ∧ (aggregateConversations l).Perm l)
    ∧ (∀ l₁ l₂ : List Conversation, l₁.Perm l₂ →
        l₁.Pairwise (fun a b => a.lastTimestamp ≠ b.lastTimestamp) →
        aggregateConversations l₁ = aggregateConversations l₂) := by
  constructor
  · intro l
    exact ⟨List.sorted_insertionSort convGE l, List.perm_insertionSort convGE l⟩
  · intro l₁ l₂ hp hk
    have hs₁ : List.Sorted convGE (aggregateConversations l₁) :=
      List.sorted_insertionSort convGE l₁
    have hs₂ : List.Sorted convGE (aggregateConversations l₂) :=
      List.sorted_insertionSort convGE l₂
    have hp₁ : (aggregateConversations l₁).Perm l₁ := List.perm_insertionSort convGE l₁
    have hp₂ : (aggregateConversations l₂).Perm l₂ := List.perm_insertionSort convGE l₂
    have hk₁ : (aggregateConversations l₁).Pairwise
        (fun a b => a.lastTimestamp ≠ b.lastTimestamp) :=
      (hp₁.pairwise_iff (fun h => Ne.symm h)).mpr hk
    have hk₂ : (aggregateConversations l₂).Pairwise
        (fun a b => a.lastTimestamp ≠ b.lastTimestamp) :=
      ((hp₂.trans hp.symm).pairwise_iff (fun h => Ne.symm h)).mpr hk
    have hstrict : ∀ (l : List Conversation), List.Sorted convGE l →
        l.Pairwise (fun a b => a.lastTimestamp ≠ b.lastTimestamp) →
        List.Sorted convGT l := by
      intro l hs hne
      exact (hs.and hne).imp
        (fun h => listLt_false_of_ne _ _ h.1 (strings_ne_data_ne h.2))
    exact List.eq_of_perm_of_sorted (hp₁.trans (hp.trans hp₂.symm))
      (hstrict _ hs₁ hk₁) (hstrict _ hs₂ hk₂)

/-- C7 witness: the unconditional part evaluated on a tied-key list, and
the order-independence part on two conversations with distinct keys
aggregated in both orders. -/
theorem getConversations_sort_spec_witness :
    (List.Sorted convGE (aggregateConversations [tieConvA, tieConvB])
      ∧ (aggregateConversations [tieConvA, tieConvB]).Perm [tieConvA, tieConvB])
    ∧ aggregateConversations [tieConvA, keyConvC]
        = aggregateConversations [keyConvC, tieConvA] :=
  ⟨getConversations_sort_spec.1 [tieConvA, tieConvB],
   getConversations_sort_spec.2 [tieConvA, keyConvC] [keyConvC, tieConvA]
     (List.Perm.swap keyConvC tieConvA []) (by decide)⟩

/-! C8: the preview windowing. -/

theorem renderLoop_filter (shown : Nat → Bool) :
    ∀ (xs : List Nat) (last : Option Nat),
      renderLoop shown xs last = renderLoop (fun _ => true) (xs.filter shown) last := by
  intro xs
  induction xs with
  | nil => intro last; rfl
  | cons i rest ih =>
      intro last
      by_cases hi : shown i
      · rw [renderLoop, if_pos hi, List.filter_cons_of_pos hi, renderLoop, if_pos rfl, ih]
      · rw [renderLoop, if_neg hi, List.filter_cons_of_neg hi, ih]

theorem msgContains_lt (conv : Conversation) (query : String) (j : Nat)
    (h : msgContains conv query j = true) : j < conv.messages.length := by
  by_contra hle
  have : conv.messages.get? j = none := List.get?_eq_none.mpr (by omega)
  rw [msgContains, this] at h
  exact Bool.false_ne_true h

theorem showIdx_zero (conv : Conversation) (query : String)
    (hn : 0 < conv.messages.length) : showIdx conv query 0 = true := by
  simp [showIdx, hn]

theorem showIdx_last (conv : Conversation) (query : String)
    (hn : 0 < conv.messages.length) :
    showIdx conv query (conv.messages.length - 1) = true := by
  have h2 : conv.messages.length ≤ conv.messages.length - 1 + 2 := by omega
  have h3 : conv.messages.length - 1 < conv.messages.length := by omega
  simp [showIdx, h2, h3]

theorem skeleton_glue (shown : Nat → Bool) (n : Nat)
    (h0 : 0 < n → shown 0 = true) (hl : 0 < n → shown (n - 1) = true) :
    renderLoop shown (List.range n) none
      ++ (match ((List.range n).filter shown).getLast? with
          | none => if 0 < n then [PreviewToken.skip n] else []
          | some l => if l + 1 < n then [PreviewToken.skip (n - 1 - l)] else [])
      = claimSkeleton ((List.range n).filter shown) := by
  cases n with
  | zero => rfl
  | succ mm =>
      have h0' : shown 0 = true := h0 (Nat.succ_pos mm)
      have hl' : shown mm = true := by
        have := hl (Nat.succ_pos mm)
        simpa using this
      have hds : (List.range (mm + 1)).filter shown
          = 0 :: (((List.range mm).map Nat.succ).filter shown) := by
        rw [List.range_succ_eq_map, List.filter_cons_of_pos h0']
      have hlast : ((List.range (mm + 1)).filter shown).getLast? = some mm := by
        rw [List.range_succ, List.filter_append, List.filter_cons_of_pos hl']
        simp only [List.filter_nil]
        exact List.getLast?_concat _
      rw [hlast]
      simp only [Nat.lt_irrefl, if_false, List.append_nil]
      rw [renderLoop_filter shown, hds]
      rw [claimSkeleton, renderLoop, if_pos rfl]
      rfl

theorem previewSkeleton_eq_codeShown (conv : Conversation) (query : String) :
    previewSkeleton conv query
      = claimSkeleton ((List.range conv.messages.length).filter
          (fun i => showIdx conv query i)) :=
  skeleton_glue (fun i => showIdx conv query i) conv.messages.length
    (showIdx_zero conv query) (showIdx_last conv query)

theorem showIdx_eq_claim_pointwise (conv : Conversation) (query : String)
    (hq : ¬ query = "") (i : Nat) (hi : i < conv.messages.length) :
    showIdx conv query i = claimShowIdx conv query i := by
  have hqb : (query == "") = false := beq_eq_false_iff_ne.mpr hq
  rw [Bool.eq_iff_iff]
  simp only [showIdx, claimShowIdx, matchesAt, hqb, Bool.not_false, Bool.true_and,
    Bool.or_eq_true, Bool.and_eq_true, decide_eq_true_eq, List.any_eq_true, List.mem_range]
  constructor
  · rintro ((((⟨h1, _⟩ | ⟨h1, _⟩) | hC) | hC) | ⟨⟨h1, hC⟩, _⟩)
    · exact Or.inl (Or.inl h1)
    · exact Or.inl (Or.inr h1)
    · refine Or.inr ⟨i, hi, ?_, hC⟩
      rw [if_pos (le_refl i)]
      omega
    · refine Or.inr ⟨i + 1, msgContains_lt conv query (i + 1) hC, ?_, hC⟩
      rw [if_pos (by omega)]
      omega
    · refine Or.inr ⟨i - 1, by omega, ?_, hC⟩
      rw [if_neg (by omega)]
      omega
  · rintro ((h1 | h1) | ⟨j, hj, hdist, hC⟩)
    · exact Or.inl (Or.inl (Or.inl (Or.inl ⟨h1, hi⟩)))
    · exact Or.inl (Or.inl (Or.inl (Or.inr ⟨h1, hi⟩)))
    · by_cases hle : i ≤ j
      · rw [if_pos hle] at hdist
        have hji : j = i ∨ j = i + 1 := by omega
        rcases hji with rfl | rfl
        · exact Or.inl (Or.inl (Or.inr hC))
        · exact Or.inl (Or.inr hC)
      · rw [if_neg hle] at hdist
        refine Or.inr ⟨⟨by omega, ?_⟩, hi⟩
        rw [show i - 1 = j from by omega]
        exact hC

theorem showIdx_empty_pointwise (conv : Conversation) (i : Nat)
    (hi : i < conv.messages.length) :
    showIdx conv "" i
      = (decide (i < 2) || decide (conv.messages.length ≤ i + 2)) := by
  have hm : ∀ k, matchesAt conv "" k = false := by
    intro k
    rfl
  rw [Bool.eq_iff_iff]
  simp only [showIdx, hm, Bool.or_false, Bool.and_false, Bool.false_and,
    Bool.or_eq_true, Bool.and_eq_true, decide_eq_true_eq]
  constructor
  · rintro (⟨h1, _⟩ | ⟨h1, _⟩)
    · exact Or.inl h1
    · exact Or.inr h1
  · rintro (h1 | h1)
    · exact Or.inl ⟨h1, hi⟩
    · exact Or.inr ⟨h1, hi⟩

/-- C8 counterexample: with the empty query every message contains the
query, so the claim's shown set is every index; the code builds no match
set for an empty query and shows only the first two and last two of five
messages, skipping the middle one. -/
theorem previewSkeleton_claim_cex :
    previewSkeleton fiveConv ""
      ≠ claimSkeleton ((List.range fiveConv.messages.length).filter
          (fun i => claimShowIdx fiveConv "" i)) := by
  decide

/-- C8 (amended): for every conversation and NON-EMPTY query, the
emitted preview is exactly the claim set (first two, last two, and every
index within one of a case-insensitive match) in original order with a
single skipped-messages marker in each gap; for the empty query no match
set is built and only the first two and last two indices are shown. -/
theorem previewSkeleton_spec (conv : Conversation) (query : String) :
    (query ≠ "" → previewSkeleton conv query
        = claimSkeleton ((List.range conv.messages.length).filter
            (fun i => claimShowIdx conv query i)))
    ∧ (query = "" → previewSkeleton conv query
        = claimSkeleton ((List.range conv.messages.length).filter
            (fun i => decide (i < 2) || decide (conv.messages.length ≤ i + 2)))) := by
  constructor
  · intro hq
    rw [previewSkeleton_eq_codeShown]
    have hfe : (List.range conv.messages.length).filter (fun i => showIdx conv query i)
        = (List.range conv.messages.length).filter (fun i => claimShowIdx conv query i) :=
      List.filter_congr
        (fun i hi => showIdx_eq_claim_pointwise conv query hq i (List.mem_range.mp hi))
    rw [hfe]
  · intro hq
    subst hq
    rw [previewSkeleton_eq_codeShown]
    have hfe : (List.range conv.messages.length).filter (fun i => showIdx conv "" i)
        = (List.range conv.messages.length).filter
            (fun i => decide (i < 2) || decide (conv.messages.length ≤ i + 2)) :=
      List.filter_congr
        (fun i hi => showIdx_empty_pointwise conv i (List.mem_range.mp hi))
    rw [hfe]

/-- C8 witness: a nine-message conversation with a match at index 5 and
the query "hello": the emitted tokens equal the claim skeleton; and the
empty-query shape on the five-message conversation. -/
theorem previewSkeleton_spec_witness :
    previewSkeleton nineConv "hello"
      = claimSkeleton ((List.range nineConv.messages.length).filter
          (fun i => claimShowIdx nineConv "hello" i))
    ∧ previewSkeleton fiveConv ""
      = claimSkeleton ((List.range fiveConv.messages.length).filter
          (fun i => decide (i < 2) || decide (fiveConv.messages.length ≤ i + 2))) :=
  ⟨(previewSkeleton_spec nineConv "hello").1 (by decide),
   (previewSkeleton_spec fiveConv "").2 rfl⟩

/-! C4: the confirmed deletion. -/

/-- C4: a valid deleteIndex with a successful file removal removes
exactly the confirmed entry from filtered (take/drop around the index)
and exactly the first entry with the victim's session ID from items
(order of the rest preserved), clamps the cursor into the new bounds,
clears the error and leaves confirmation mode; a failed removal leaves
both collections unchanged and sets an error message; an out-of-range
deleteIndex is a no-op. -/
theorem deleteConversation_spec :
    (∀ (m : Model) (victim : ListItem), 0 ≤ m.cursor → 0 ≤ m.deleteIndex →
      m.filtered.get? m.deleteIndex.toNat = some victim →
      (∃ it ∈ m.items, it.conv.sessionID = victim.conv.sessionID) →
      ((deleteConversation true m).filtered
          = m.filtered.take m.deleteIndex.toNat ++ m.filtered.drop (m.deleteIndex.toNat + 1)
        ∧ (∃ it l₁ l₂, it.conv.sessionID = victim.conv.sessionID
            ∧ (∀ b ∈ l₁, b.conv.sessionID ≠ victim.conv.sessionID)
            ∧ m.items = l₁ ++ it :: l₂
            ∧ (deleteConversation true m).items = l₁ ++ l₂)
        ∧ 0 ≤ (deleteConversation true m).cursor
        ∧ ((deleteConversation true m).filtered ≠ [] →
            (deleteConversation true m).cursor
              < ((deleteConversation true m).filtered.length : Int))
        ∧ (deleteConversation true m).confirmDelete = false
        ∧ (deleteConversation true m).errorMsg = "")
      ∧ ((deleteConversation false m).items = m.items
        ∧ (deleteConversation false m).filtered = m.filtered
        ∧ (deleteConversation false m).cursor = m.cursor
        ∧ (deleteConversation false m).errorMsg ≠ ""
        ∧ (deleteConversation false m).confirmDelete = false))
    ∧ (∀ (m : Model) (removeOk : Bool),
        (m.deleteIndex < 0 ∨ (m.filtered.length : Int) ≤ m.deleteIndex) →
        deleteConversation removeOk m = m) := by
  constructor
  · intro m victim hcur hd0 hget hmem
    have hneg : ¬ m.deleteIndex < 0 := not_lt.mpr hd0
    constructor
    · have hred : deleteConversation true m = { m with
          items := m.items.eraseP (fun it => it.conv.sessionID == victim.conv.sessionID),
          filtered := m.filtered.eraseIdx m.deleteIndex.toNat,
          cursor :=
            (if ((m.filtered.eraseIdx m.deleteIndex.toNat).length : Int) ≤ m.cursor
             then max 0 (((m.filtered.eraseIdx m.deleteIndex.toNat).length : Int) - 1)
             else m.cursor),
          errorMsg := "", confirmDelete := false } := by
        rw [deleteConversation, if_neg hneg]
        simp only [hget]
        rfl
      refine ⟨?_, ?_, ?_, ?_, ?_, ?_⟩
      · rw [hred]
        exact List.eraseIdx_eq_take_drop_succ _ _
      · obtain ⟨it, hit, hsid⟩ := hmem
        have hpa : (fun b : ListItem => b.conv.sessionID == victim.conv.sessionID) it = true := by
          simp [hsid]
        obtain ⟨a, l₁, l₂, h1, h2, h3, h4⟩ := List.exists_of_eraseP (p := fun b => b.conv.sessionID == victim.conv.sessionID) hit hpa
        refine ⟨a, l₁, l₂, by simpa using h2, ?_, h3, ?_⟩
        · intro b hb
          simpa using h1 b hb
        · rw [hred]
          exact h4
      · rw [hred]
        show 0 ≤ (if ((m.filtered.eraseIdx m.deleteIndex.toNat).length : Int) ≤ m.cursor
            then max 0 (((m.filtered.eraseIdx m.deleteIndex.toNat).length : Int) - 1)
            else m.cursor)
        split <;> omega
      · rw [hred]
        intro hne
        have hlen : (m.filtered.eraseIdx m.deleteIndex.toNat).length ≠ 0 := by
          intro h0
          exact hne (by simpa using List.length_eq_zero.mp h0)
        show (if ((m.filtered.eraseIdx m.deleteIndex.toNat).length : Int) ≤ m.cursor
            then max 0 (((m.filtered.eraseIdx m.deleteIndex.toNat).length : Int) - 1)
            else m.cursor) < ((m.filtered.eraseIdx m.deleteIndex.toNat).length : Int)
        split <;> omega
      · rw [hred]
      · rw [hred]
    · have hred : deleteConversation false m = { m with
          errorMsg := "failed to delete conversation file", confirmDelete := false } := by
        rw [deleteConversation, if_neg hneg]
        simp only [hget]
        rfl
      rw [hred]
      exact ⟨rfl, rfl, rfl,
        (by decide : ("failed to delete conversation file" : String) ≠ ""), rfl⟩
  · intro m removeOk hd
    rcases hd with hneg | hbig
    · rw [deleteConversation, if_pos hneg]
    · have hneg : ¬ m.deleteIndex < 0 := by omega
      have hnone : m.filtered.get? m.deleteIndex.toNat = none := by
        rw [List.get?_eq_none]
        omega
      rw [deleteConversation, if_neg hneg]
      simp only [hnone]

/-- C4 witness: the two-item model deleting index 0: both collections
shrink on success, stay on failure, and an out-of-range index is a
no-op. -/
theorem deleteConversation_spec_witness :
    (deleteConversation true deleteModel).filtered = [itemOf "second"]
    ∧ (deleteConversation false deleteModel).filtered = deleteModel.filtered
    ∧ deleteConversation true { deleteModel with deleteIndex := 5 } = { deleteModel with deleteIndex := 5 } := by
  have h := deleteConversation_spec.1 deleteModel (itemOf "first") (by decide) (by decide)
    (by decide) ⟨itemOf "first", by decide, rfl⟩
  have h2 := deleteConversation_spec.2 { deleteModel with deleteIndex := 5 } true
    (by right; decide)
  refine ⟨?_, h.2.2.1, h2⟩
  rw [h.1.1]
  decide

/-! C6: the cursor invariant. -/

theorem cursorInv_build (l : List ListItem) (c : Int) {m2 : Model}
    (hf : m2.filtered = l) (hc : m2.cursor = c)
    (h1 : l ≠ [] → 0 ≤ c ∧ c < (l.length : Int))
    (h2 : l = [] → c = 0) : cursorInv m2 := by
  refine ⟨fun hne => ?_, fun he => ?_⟩
  · rw [hf] at hne
    rw [hc, hf]
    exact h1 hne
  · rw [hf] at he
    rw [hc]
    exact h2 he

theorem updateFilter_cursorInv (m : Model) (hc : 0 ≤ m.cursor) :
    cursorInv (updateFilter m) := by
  refine ⟨fun hne => ?_, fun he => ?_⟩
  · have hlen : (updateFilter m).filtered.length ≠ 0 := by
      intro h0
      exact hne (List.length_eq_zero.mp h0)
    show 0 ≤ (if ((updateFilter m).filtered.length : Int) ≤ m.cursor
        then max 0 (((updateFilter m).filtered.length : Int) - 1) else m.cursor)
      ∧ (if ((updateFilter m).filtered.length : Int) ≤ m.cursor
        then max 0 (((updateFilter m).filtered.length : Int) - 1) else m.cursor)
        < ((updateFilter m).filtered.length : Int)
    constructor <;> (split <;> omega)
  · have hlen : (updateFilter m).filtered.length = 0 := by rw [he]; rfl
    show (if ((updateFilter m).filtered.length : Int) ≤ m.cursor
        then max 0 (((updateFilter m).filtered.length : Int) - 1) else m.cursor) = 0
    rw [hlen]
    split <;> omega

theorem cursorInv_nonneg (m : Model) (h : cursorInv m) : 0 ≤ m.cursor := by
  by_cases he : m.filtered = []
  · rw [h.2 he]
  · exact (h.1 he).1

theorem deleteConversation_cursorInv (removeOk : Bool) (m : Model) (h : cursorInv m) :
    cursorInv (deleteConversation removeOk m) := by
  have hc0 : 0 ≤ m.cursor := cursorInv_nonneg m h
  by_cases hneg : m.deleteIndex < 0
  · rw [deleteConversation, if_pos hneg]
    exact h
  · rw [deleteConversation, if_neg hneg]
    cases hget : m.filtered.get? m.deleteIndex.toNat with
    | none =>
        simp only [hget]
        exact h
    | some victim =>
        simp only [hget]
        cases removeOk with
        | false =>
            simp only [Bool.false_eq_true, if_false]
            exact ⟨h.1, h.2⟩
        | true =>
            simp only [if_true]
            refine ⟨fun hne => ?_, fun he => ?_⟩
            · have hlen : (m.filtered.eraseIdx m.deleteIndex.toNat).length ≠ 0 := by
                intro h0
                exact hne (by simpa using List.length_eq_zero.mp h0)
              show 0 ≤ (if ((m.filtered.eraseIdx m.deleteIndex.toNat).length : Int) ≤ m.cursor
                  then max 0 (((m.filtered.eraseIdx m.deleteIndex.toNat).length : Int) - 1)
                  else m.cursor)
                ∧ (if ((m.filtered.eraseIdx m.deleteIndex.toNat).length : Int) ≤ m.cursor
                  then max 0 (((m.filtered.eraseIdx m.deleteIndex.toNat).length : Int) - 1)
                  else m.cursor) < ((m.filtered.eraseIdx m.deleteIndex.toNat).length : Int)
              constructor <;> (split <;> omega)
            · have hlen : (m.filtered.eraseIdx m.deleteIndex.toNat).length = 0 := by
                rw [show (m.filtered.eraseIdx m.deleteIndex.toNat) = [] from he]
                rfl
              show (if ((m.filtered.eraseIdx m.deleteIndex.toNat).length : Int) ≤ m.cursor
                  then max 0 (((m.filtered.eraseIdx m.deleteIndex.toNat).length : Int) - 1)
                  else m.cursor) = 0
              rw [hlen]
              split <;> omega

/-- C6: the cursor invariant (0 <= cursor < len(filtered) when filtered
is non-empty, cursor = 0 when it is empty) holds in the initial model
and is preserved by every input-event transition: query edits, cursor
movement, wheel events, clearing, and the delete flow. -/
theorem step_cursorInv :
    (∀ (items : List ListItem) (q : String), cursorInv (initialModel items q))
    ∧ (∀ (m : Model) (msg : InputMsg), cursorInv m → cursorInv (step m msg)) := by
  constructor
  · intro items q
    exact updateFilter_cursorInv _ (by exact Int.le_refl 0)
  · intro m msg hinv
    have hc0 : 0 ≤ m.cursor := cursorInv_nonneg m hinv
    rw [step.eq_def]
    by_cases hcd : m.confirmDelete
    · rw [if_pos hcd]
      cases msg with
      | keyYes removeOk => exact deleteConversation_cursorInv removeOk m hinv
      | keyNo => exact ⟨hinv.1, hinv.2⟩
      | keyEsc => exact ⟨hinv.1, hinv.2⟩
      | windowSize w h => exact hinv
      | wheelUp y => exact hinv
      | wheelDown y => exact hinv
      | keyUp => exact hinv
      | keyDown => exact hinv
      | keyPgUp => exact hinv
      | keyPgDown => exact hinv
      | keyCtrlU => exact hinv
      | keyEnter => exact hinv
      | textEdit v => exact hinv
      | keyCtrlD => exact hinv
    · rw [if_neg hcd]
      cases msg with
      | windowSize w h => exact ⟨hinv.1, hinv.2⟩
      | wheelUp y =>
          show cursorInv (update m (InputMsg.wheelUp y))
          rw [update]
          by_cases hip : decide (2 + m.listHeight < y) = true
          · rw [if_pos hip]
            exact ⟨hinv.1, hinv.2⟩
          · rw [if_neg hip]
            by_cases hlt : 0 < m.cursor
            · rw [if_pos hlt]
              refine cursorInv_build m.filtered (m.cursor - 1) rfl rfl
                (fun hne => ?_) (fun he => ?_)
              · obtain ⟨h1, h2⟩ := hinv.1 hne
                exact ⟨by omega, by omega⟩
              · have := hinv.2 he
                omega
            · rw [if_neg hlt]
              exact ⟨hinv.1, hinv.2⟩
      | wheelDown y =>
          show cursorInv (update m (InputMsg.wheelDown y))
          rw [update]
          by_cases hip : decide (2 + m.listHeight < y) = true
          · rw [if_pos hip]
            exact ⟨hinv.1, hinv.2⟩
          · rw [if_neg hip]
            by_cases hlt : m.cursor < (m.filtered.length : Int) - 1
            · rw [if_pos hlt]
              refine cursorInv_build m.filtered (m.cursor + 1) rfl rfl
                (fun hne => ?_) (fun he => ?_)
              · obtain ⟨h1, h2⟩ := hinv.1 hne
                exact ⟨by omega, by omega⟩
              · have h0 := hinv.2 he
                have hl : m.filtered.length = 0 := by rw [he]; rfl
                omega
            · rw [if_neg hlt]
              exact ⟨hinv.1, hinv.2⟩
      | keyUp =>
          show cursorInv (update m InputMsg.keyUp)
          rw [update]
          by_cases hlt : 0 < m.cursor
          · rw [if_pos hlt]
            refine cursorInv_build m.filtered (m.cursor - 1) rfl rfl
              (fun hne => ?_) (fun he => ?_)
            · obtain ⟨h1, h2⟩ := hinv.1 hne
              exact ⟨by omega, by omega⟩
            · have := hinv.2 he
              omega
          · rw [if_neg hlt]
            exact hinv
      | keyDown =>
          show cursorInv (update m InputMsg.keyDown)
          rw [update]
          by_cases hlt : m.cursor < (m.filtered.length : Int) - 1
          · rw [if_pos hlt]
            refine cursorInv_build m.filtered (m.cursor + 1) rfl rfl
              (fun hne => ?_) (fun he => ?_)
            · obtain ⟨h1, h2⟩ := hinv.1 hne
              exact ⟨by omega, by omega⟩
            · have h0 := hinv.2 he
              have hl : m.filtered.length = 0 := by rw [he]; rfl
              omega
          · rw [if_neg hlt]
            exact hinv
      | keyPgUp => exact ⟨hinv.1, hinv.2⟩
      | keyPgDown => exact ⟨hinv.1, hinv.2⟩
      | keyCtrlU =>
          show cursorInv (update m InputMsg.keyCtrlU)
          rw [update]
          exact updateFilter_cursorInv _ hc0
      | keyEnter =>
          show cursorInv (update m InputMsg.keyEnter)
          rw [update]
          by_cases hpos : 0 < m.filtered.length
          · rw [if_pos hpos]
            exact ⟨hinv.1, hinv.2⟩
          · rw [if_neg hpos]
            exact ⟨hinv.1, hinv.2⟩
      | keyEsc => exact ⟨hinv.1, hinv.2⟩
      | textEdit v =>
          show cursorInv (update m (InputMsg.textEdit v))
          rw [update]
          by_cases hv : (v == m.query) = true
          · rw [if_pos hv]
            exact ⟨hinv.1, hinv.2⟩
          · rw [if_neg hv]
            exact updateFilter_cursorInv _ hc0
      | keyCtrlD =>
          show cursorInv (if 0 < m.filtered.length
            then { m with confirmDelete := true, deleteIndex := m.cursor } else m)
          by_cases hpos : 0 < m.filtered.length
          · rw [if_pos hpos]
            exact ⟨hinv.1, hinv.2⟩
          · rw [if_neg hpos]
            exact hinv
      | keyYes removeOk => exact hinv
      | keyNo => exact hinv

/-- C6 witness: the invariant holds for the scenario model and is kept
by a concrete shrinking filter transition. -/
theorem step_cursorInv_witness :
    cursorInv (initialModel scenarioItems "")
    ∧ cursorInv (step (initialModel scenarioItems "") (InputMsg.textEdit "hello")) := by
  have h1 := step_cursorInv.1 scenarioItems ""
  have h2 := step_cursorInv.2 (initialModel scenarioItems "") (InputMsg.textEdit "hello") h1
  exact ⟨h1, h2⟩

/-! C5: the admission filters. -/

/-- C5: parsing returns absent, for every line content, when the file
name has the "agent-" prefix, when a cutoff is set and the modification
time is older, or when a nonzero maximum size is exceeded; an unset
cutoff and a zero size mean no limit, and a size exactly equal to the
maximum passes the filter. -/
theorem parseConversationFile_admission :
    (∀ name mt sz lines cutoff maxSz, strStartsWith name "agent-" = true →
        parseConversationFile name mt sz lines cutoff maxSz = none)
    ∧ (∀ name mt sz lines c maxSz, mt < c →
        parseConversationFile name mt sz lines (some c) maxSz = none)
    ∧ (∀ name mt sz lines cutoff maxSz, maxSz ≠ 0 → maxSz < sz →
        parseConversationFile name mt sz lines cutoff maxSz = none)
    ∧ (∀ name mt sz lines, strStartsWith name "agent-" = false →
        parseConversationFile name mt sz lines none 0
          = parseLines (trimSuffix name ".jsonl") lines)
    ∧ (∀ name mt lines c maxSz, strStartsWith name "agent-" = false →
        c ≤ mt → maxSz ≠ 0 →
        parseConversationFile name mt maxSz lines (some c) maxSz
          = parseLines (trimSuffix name ".jsonl") lines) := by
  refine ⟨?_, ?_, ?_, ?_, ?_⟩
  · intro name mt sz lines cutoff maxSz h
    simp [parseConversationFile, h]
  · intro name mt sz lines c maxSz h
    by_cases ha : strStartsWith name "agent-" <;>
      simp [parseConversationFile, ha, h]
  · intro name mt sz lines cutoff maxSz h0 hlt
    by_cases ha : strStartsWith name "agent-"
    · simp [parseConversationFile, ha]
    · cases cutoff with
      | none => simp [parseConversationFile, ha, h0, hlt]
      | some c =>
          by_cases hc : mt < c <;>
            simp [parseConversationFile, ha, hc, h0, hlt]
  · intro name mt sz lines ha
    simp [parseConversationFile, ha]
  · intro name mt lines c maxSz ha hle h0
    have hc : ¬ mt < c := not_lt.mpr hle
    simp [parseConversationFile, ha, hc, h0]

/-- C5 witness: the admission conclusions at concrete inputs, in
particular a file of size exactly the maximum being parsed. -/
theorem parseConversationFile_admission_witness :
    parseConversationFile "agent-x.jsonl" 0 0 sandwichLines none 0 = none
    ∧ parseConversationFile "old.jsonl" 5 0 sandwichLines (some 10) 0 = none
    ∧ parseConversationFile "big.jsonl" 0 100 sandwichLines none 99 = none
    ∧ parseConversationFile "ok.jsonl" 0 0 sandwichLines none 0
        = parseLines "ok" sandwichLines
    ∧ parseConversationFile "边.jsonl" 20 50 sandwichLines (some 10) 50
        = parseLines "边" sandwichLines := by
  refine ⟨?_, ?_, ?_, ?_, ?_⟩
  · exact parseConversationFile_admission.1 "agent-x.jsonl" 0 0 sandwichLines none 0 (by decide)
  · exact parseConversationFile_admission.2.1 "old.jsonl" 5 0 sandwichLines 10 0 (by decide)
  · exact parseConversationFile_admission.2.2.1 "big.jsonl" 0 100 sandwichLines none 99
      (by decide) (by decide)
  · have h := parseConversationFile_admission.2.2.2.1 "ok.jsonl" 0 0 sandwichLines (by decide)
    exact h.trans (by rw [show trimSuffix "ok.jsonl" ".jsonl" = "ok" from by decide])
  · have h := parseConversationFile_admission.2.2.2.2 "边.jsonl" 20 sandwichLines 10 50
      (by decide) (by decide) (by decide)
    exact h.trans (by rw [show trimSuffix "边.jsonl" ".jsonl" = "边" from by decide])

end Ccs
